import Mathlib

/-!
Verification development for the `ai_chatbot` repository.

Strings are modelled as `List Char` (Python `str`), so that Python's
character-level operations (slicing, `rfind`, `strip`, `rstrip`,
`endswith`, substring containment, lexicographic sorting) have direct,
executable counterparts.  External library collaborators (the HTML
parser's output tree, `urllib.parse.urljoin`, the `re` regex engine, the
HTTP transport, the vector store and the LLM backends) are modelled as
explicit parameters or as algebraic data already carrying the library
call's result; everything written in the repository itself is translated
directly from the source.
-/

/-! ## Python string helpers -/

/-- Python's whitespace set for `str.strip()` (space, tab, LF, CR, VT, FF). -/
def pyIsSpace (c : Char) : Bool :=
  c = ' ' || c = '\t' || c = '\n' || c = '\r' || c = Char.ofNat 11 || c = Char.ofNat 12

/-- Python `str.strip()`: remove leading and trailing whitespace. -/
def pyStrip (s : List Char) : List Char :=
  ((s.dropWhile pyIsSpace).reverse.dropWhile pyIsSpace).reverse

/-- Python `str.strip(chars)` for a one-character `chars` argument:
remove every leading and trailing occurrence of `c`. -/
def pyStripChar (c : Char) (s : List Char) : List Char :=
  ((s.dropWhile (fun a => a = c)).reverse.dropWhile (fun a => a = c)).reverse

/-- Python slice `text[a:b]` (for `0 ≤ a ≤ b`). -/
def pySlice (text : List Char) (a b : Nat) : List Char :=
  (text.take b).drop a

/-- Python `str.startswith(prefix)`. -/
def pyStartswith (s pre : List Char) : Bool :=
  decide (pre <+: s)

/-- Python `str.endswith(suffix)`. -/
def pyEndswith (s suffix : List Char) : Bool :=
  decide (suffix <:+ s)

/-- Python `sub in s` substring containment. -/
def pyContains (s sub : List Char) : Bool :=
  decide (sub <:+: s)

/-- Python `str.lower()` (ASCII model). -/
def pyLower (s : List Char) : List Char :=
  s.map Char.toLower

/-- Python `sorted(list(someSet))` over a collection of strings: the
distinct elements in ascending lexicographic order. -/
def sortedDedup (l : List (List Char)) : List (List Char) :=
  List.insertionSort (· ≤ ·) l.dedup

/-! ## src/utils.py -/

/-- `url.split("#")[0]`: the part of the string before the first `'#'`. -/
def splitHashHead (s : List Char) : List Char :=
  s.takeWhile (fun c => c ≠ '#')

/-- Python `str.rstrip("/")`: remove every trailing `'/'`. -/
def rstripSlash (s : List Char) : List Char :=
  (s.reverse.dropWhile (fun c => c = '/')).reverse

/-- `normalize_url` from `src/utils.py`: `url.split("#")[0].rstrip("/")`. -/
def normalize_url (url : List Char) : List Char :=
  rstripSlash (splitHashHead url)

/-- The normalization described by the claim under examination: strip
everything from the first `'#'` onward, then strip exactly ONE trailing
`'/'`.  Kept separate from `normalize_url` so the two can be compared. -/
def normalizeOneSlash (url : List Char) : List Char :=
  let h := splitHashHead url
  if h.getLast? = some '/' then h.dropLast else h

/-- Removing every trailing occurrence of `c`, written by direct
structural recursion from the front (independent of the
reverse/`dropWhile`/reverse implementation route). -/
def dropTrailingAll (c : Char) : List Char → List Char
  | [] => []
  | a :: as =>
    match dropTrailingAll c as with
    | [] => if a = c then [] else [a]
    | r => a :: r

/-- A character is a valid (non-initial) URL-scheme character. -/
def isSchemeChar (c : Char) : Bool :=
  c.isAlphanum || c = '+' || c = '-' || c = '.'

/-- A valid URL scheme: a letter followed by scheme characters. -/
def validScheme : List Char → Bool
  | [] => false
  | c :: rest => c.isAlpha && rest.all isSchemeChar

/-- Model of the scheme-splitting step of `urllib.parse.urlsplit`: when
the string starts with `scheme:` for a valid scheme, return the part
after the colon, else the whole string. -/
def afterScheme (url : List Char) : List Char :=
  let pre := url.takeWhile (fun c => c ≠ ':')
  if pre.length < url.length && validScheme pre then url.drop (pre.length + 1) else url

/-- Model of `urllib.parse.urlparse(url).netloc`: after the scheme, a
netloc is present only behind `//` and extends to the first `/`, `?` or
`#`. -/
def netloc (url : List Char) : List Char :=
  match afterScheme url with
  | '/' :: '/' :: r => r.takeWhile (fun c => c ≠ '/' && c ≠ '?' && c ≠ '#')
  | _ => []

/-- `is_internal` from `src/utils.py`:
`urlparse(url).netloc.endswith(base_domain)`. -/
def is_internal (url base_domain : List Char) : Bool :=
  pyEndswith (netloc url) base_domain

/-! ## src/chunker.py -/

/-- Python `text.rfind(c, start, end)` for a one-character needle: the
largest index `i` with `start ≤ i < end` and `text[i] = c`, if any. -/
def rfindChar (text : List Char) (c : Char) (s e : Nat) : Option Nat :=
  ((List.range (e - s)).reverse.map (fun j => s + j)).find?
    (fun i => text.getD i (Char.ofNat 0) = c)

/-- Python `text.rfind(". ", start, end)`: the largest index `i` with
`start ≤ i`, `i + 2 ≤ end`, `text[i] = '.'` and `text[i+1] = ' '`. -/
def rfindDotSpace (text : List Char) (s e : Nat) : Option Nat :=
  ((List.range (e - s)).reverse.map (fun j => s + j)).find?
    (fun i => decide (i + 2 ≤ e) && (text.getD i (Char.ofNat 0) = '.')
      && (text.getD (i + 1) (Char.ofNat 0) = ' '))

/-- The chunk-end computation of one `chunk_text` loop iteration:
tentative end `min(start + chunk_size, text_len)`, then, when not at the
end of the text, moved back to just after the last newline in the
window, else just after the last `". "` in the window. -/
def chunkEnd (text : List Char) (chunk_size start : Nat) : Nat :=
  let text_len := text.length
  let e := min (start + chunk_size) text_len
  if e < text_len then
    match rfindChar text '\n' start e with
    | some i => i + 1
    | none =>
      match rfindDotSpace text start e with
      | some i => i + 1
      | none => e
  else e

/-- `chunk = text[start:end].strip(); if chunk: chunks.append(chunk)`:
prepend the stripped slice when non-empty. -/
def emitChunk (chunk : List Char) (rest : List (List Char)) : List (List Char) :=
  if chunk = [] then rest else chunk :: rest

/-- `next_start = end - overlap`, forced to `end` when that would not
move `start` strictly forward. -/
def nextStart (e overlap start : Nat) : Nat :=
  if e - overlap ≤ start then e else e - overlap

/-- The `while start < text_len` loop of `chunk_text`, with explicit
fuel (the Python loop has no syntactic bound; `none` means the fuel ran
out before the loop exited). -/
def chunkLoop (text : List Char) (chunk_size overlap : Nat) :
    Nat → Nat → Option (List (List Char))
  | 0, start => if start < text.length then none else some []
  | fuel + 1, start =>
    if start < text.length then
      if chunkEnd text chunk_size start = text.length then
        some (emitChunk (pyStrip (pySlice text start (chunkEnd text chunk_size start))) [])
      else
        match chunkLoop text chunk_size overlap fuel
            (nextStart (chunkEnd text chunk_size start) overlap start) with
        | some rest =>
          some (emitChunk (pyStrip (pySlice text start (chunkEnd text chunk_size start))) rest)
        | none => none
    else some []

/-- `chunk_text` from `src/chunker.py`, run with fuel equal to the text
length (shown sufficient below when `chunk_size > 0`). -/
def chunk_text (text : List Char) (chunk_size overlap : Nat) : List (List Char) :=
  (chunkLoop text chunk_size overlap text.length 0).getD []

/-! ## src/chat.py -/

/-- The fixed system preamble (`SYSTEM_PROMPT`). -/
def SYSTEM_PROMPT : List Char :=
  ("You are a helpful AI assistant.\n\nYour goal is to answer the user\x27s question "
    ++ "using the provided CONTEXT.\n\nRules:\n"
    ++ "1. Use Context: Base your answer on the information provided below.\n"
    ++ "2. Reasoning: You may synthesize and infer benefits when reasonable.\n"
    ++ "3. Honesty: If the context has no relevant info, say so clearly.\n"
    ++ "4. Tone: Be helpful, professional, and concise.\n").data

/-- `ChatEngine._build_prompt`. -/
def build_prompt (context question : List Char) : List Char :=
  SYSTEM_PROMPT ++ "\n\nContext:\n".data ++ context ++ "\n\nQuestion:\n".data
    ++ question ++ "\n\nAnswer:".data

/-- `ChatEngine._build_messages`: (role, content) pairs. -/
def build_messages (context question : List Char) : List (List Char × List Char) :=
  [("system".data, SYSTEM_PROMPT),
   ("user".data, "Context:\n".data ++ context ++ "\n\nQuestion:\n".data ++ question)]

/-- The result dictionary returned by the vector store's `query` (a
Chroma result): parallel outer lists indexed by query embedding, inner
lists ranked by distance.  Metadata dictionaries are association lists;
a `none` entry models a `None` metadata. -/
structure SearchResults where
  documents : List (List (List Char))
  metadatas : List (List (Option (List (List Char × List Char))))

/-- A well-formed store reply keeps `documents` and `metadatas`
aligned, as the Chroma query interface guarantees. -/
def SearchResults.Aligned (r : SearchResults) : Prop :=
  r.documents.length = r.metadatas.length ∧
    ∀ p ∈ r.documents.zip r.metadatas, p.1.length = p.2.length

/-- `ChatEngine._get_sources`: collect the `source` metadata values of
the first query's hits into a set and return them sorted.  `none`
models a falsy `results` object. -/
def get_sources (results : Option SearchResults) : List (List Char) :=
  match results with
  | none => []
  | some r =>
    if r.metadatas ≠ [] then
      sortedDedup ((r.metadatas.headD []).filterMap
        (fun m => match m with
          | none => none
          | some kvs => kvs.lookup "source".data))
    else []

/-- The context-assembly step shared by `query` and `query_stream`:
join the first query's documents with blank lines, falling back to the
literal `"No context available."` when that is empty. -/
def context_text (results : Option SearchResults) : List Char :=
  let ct := match results with
    | none => []
    | some r =>
      if r.documents ≠ [] then List.intercalate "\n\n".data (r.documents.headD []) else []
  if ct = [] then "No context available.".data else ct

/-- The `"\n\n**Sources:**\n"` citation block appended for a non-empty
source list. -/
def sources_block (sources : List (List Char)) : List Char :=
  "\n\n**Sources:**\n".data
    ++ List.intercalate "\n".data (sources.map (fun s => "- ".data ++ s))

/-- `ChatEngine.query`, with the two external collaborators as
parameters: `results` is what `vector_store.search` returned and
`generate` is the selected backend call (`_query_ollama` composed with
`_build_prompt`, or `_query_vllm`; the claim under study does not
depend on which). -/
def ChatEngine.query (generate : List Char → List Char)
    (results : Option SearchResults) (user_question : List Char) : List Char :=
  let context := context_text results
  let response_text := generate (build_prompt context user_question)
  let sources := get_sources results
  if sources ≠ [] then response_text ++ sources_block sources else response_text

/-- `ChatEngine.query_stream`, with the backend's fragment stream as a
parameter: the yielded fragments are the backend fragments followed by
the citation block when sources exist. -/
def ChatEngine.query_stream (stream : List Char → List (List Char))
    (results : Option SearchResults) (user_question : List Char) : List (List Char) :=
  let context := context_text results
  let chunks := stream (build_prompt context user_question)
  let sources := get_sources results
  chunks ++ (if sources ≠ [] then [sources_block sources] else [])

/-- The `disallowed` model names of `_validate_ollama_model`. -/
def disallowedModels : List (List Char) :=
  ["llama3:latest".data, "llama3".data, "llama-3".data, "llama-3:latest".data]

/-- The `allowed_tags` quantization tags of `_validate_ollama_model`. -/
def allowedTags : List (List Char) :=
  ["q4".data, "q5".data, "q6".data, "q8".data]

/-- `ChatEngine._validate_ollama_model`: a raised `ValueError` is an
`error` value. -/
def validate_ollama_model (model_name : List Char) : Except (List Char) (List Char) :=
  if model_name = [] then
    .error "OLLAMA_MODEL is required for Ollama provider.".data
  else if pyLower model_name ∈ disallowedModels then
    .error "OLLAMA_MODEL cannot be llama3:latest (unquantized).".data
  else if allowedTags.any (fun tag => pyContains model_name tag) then
    .ok model_name
  else
    .error "OLLAMA_MODEL appears unquantized.".data

structure ChatEngine where
  llm_provider : List Char
  ollama_api_url : List Char
  ollama_model : List Char
  vllm_api_url : List Char
  vllm_model : List Char

/-- `ChatEngine.__init__` with the configuration already resolved (the
environment-variable defaulting happens before this logic): the model
name is validated first, then the provider name is checked; either
failure raises, so a rejected configuration never yields an engine and
no query can be made on it. -/
def ChatEngine.init (llm_provider ollama_api_url ollama_model vllm_api_url vllm_model :
    List Char) : Except (List Char) ChatEngine :=
  match validate_ollama_model ollama_model with
  | .error e => .error e
  | .ok m =>
    if pyLower llm_provider = "ollama".data || pyLower llm_provider = "vllm".data then
      .ok ⟨pyLower llm_provider, ollama_api_url, m, vllm_api_url, vllm_model⟩
    else .error "Unsupported LLM_PROVIDER.".data

def exceptIsError {α β : Type} : Except α β → Bool
  | .error _ => true
  | .ok _ => false

/-- One line of the local-model (Ollama) response stream, carrying the
result of the external JSON decode: an empty keep-alive line, a frame
whose payload fails to JSON-decode, or a decoded object with its
`done` flag and optional `response` fragment. -/
inductive OllamaFrame where
  | empty : OllamaFrame
  | malformed (raw : List Char) : OllamaFrame
  | msg (done : Bool) (response : Option (List Char)) : OllamaFrame

/-- `ChatEngine._stream_ollama`'s line loop: empty lines are skipped, a
`json.JSONDecodeError` is caught, logged and the frame skipped, a
truthy `done` breaks the stream, and a truthy `response` fragment is
yielded. -/
def stream_ollama : List OllamaFrame → List (List Char)
  | [] => []
  | .empty :: rest => stream_ollama rest
  | .malformed _ :: rest => stream_ollama rest
  | .msg done response :: rest =>
    if done then []
    else match response with
      | some c => if c ≠ [] then c :: stream_ollama rest else stream_ollama rest
      | none => stream_ollama rest

/-- One server-sent-event line of the vLLM chat-completions stream: an
empty line, the literal `[DONE]` sentinel, a payload that fails to
JSON-decode, or a decoded chunk with its optional `delta.content`. -/
inductive VllmFrame where
  | empty : VllmFrame
  | doneSentinel : VllmFrame
  | malformed (raw : List Char) : VllmFrame
  | msg (delta_content : Option (List Char)) : VllmFrame

/-- `ChatEngine._stream_vllm`'s line loop: empty lines are skipped and
`[DONE]` breaks, but `json.loads(decoded)` is NOT wrapped in a
try/except, so a decode failure raises out of the generator
(`error raw`); a present `delta.content` is yielded (even when empty). -/
def stream_vllm : List VllmFrame → Except (List Char) (List (List Char))
  | [] => .ok []
  | .empty :: rest => stream_vllm rest
  | .doneSentinel :: _ => .ok []
  | .malformed raw :: _ => .error raw
  | .msg delta_content :: rest =>
    match delta_content with
    | some c =>
      match stream_vllm rest with
      | .ok l => .ok (c :: l)
      | .error e => .error e
    | none => stream_vllm rest

/-- The documents the store returned for the (single) query embedding. -/
def returned_documents (results : Option SearchResults) : List (List Char) :=
  match results with
  | none => []
  | some r => r.documents.headD []

/-! ## src/extractor.py

The parsed markup tree (BeautifulSoup's output) is modelled as a
forest of nodes; each element node carries exactly the attributes the
extractor inspects.  `urljoin` and the `location.href`/
`window.location` on-click regex are external library collaborators and
appear as function parameters `uj` and `om`. -/

inductive HNode where
  | text (s : List Char) : HNode
  | elem (tag : List Char) (classes : List (List Char)) (role : Option (List Char))
      (href : Option (List Char)) (onclick : Option (List Char))
      (dataHref : Option (List Char)) (dataUrl : Option (List Char))
      (children : List HNode) : HNode

/-- `soup([...tag names...])` membership for `decompose`. -/
def tagIn (tags : List (List Char)) : HNode → Bool
  | .text _ => false
  | .elem t _ _ _ _ _ _ _ => decide (t ∈ tags)

/-- `soup.find_all(class_=...)` membership for the theme-chrome classes. -/
def classIn (cls : List (List Char)) : HNode → Bool
  | .text _ => false
  | .elem _ classes _ _ _ _ _ _ => classes.any (fun c => decide (c ∈ cls))

/-- `soup.find_all(attrs={"role": ...})` membership. -/
def roleIn (roles : List (List Char)) : HNode → Bool
  | .text _ => false
  | .elem _ _ role _ _ _ _ _ =>
    match role with
    | some ro => decide (ro ∈ roles)
    | none => false

/-- `tag.decompose()` over every node matching `p`: the whole subtree
of a matching node is removed. -/
def pruneForest (p : HNode → Bool) : List HNode → List HNode
  | [] => []
  | .text s :: ns => .text s :: pruneForest p ns
  | .elem t cs ro h oc dh du ch :: ns =>
    if p (.elem t cs ro h oc dh du ch) then pruneForest p ns
    else .elem t cs ro h oc dh du (pruneForest p ch) :: pruneForest p ns

/-- The `<a href>` branch of `_extract_links_from_soup`:
`href.strip().strip(chr(96)).strip()`, skip `mailto:`/`tel:`/
`javascript:` schemes, then resolve against the page URL and
canonicalize. -/
def processHref (uj : List Char → List Char → List Char) (current href : List Char) :
    List (List Char) :=
  let h := pyStrip (pyStripChar (Char.ofNat 96) (pyStrip href))
  if pyStartswith h "mailto:".data || pyStartswith h "tel:".data
      || pyStartswith h "javascript:".data then []
  else [normalize_url (uj current h)]

/-- The links one element contributes across the three collection
passes of `_extract_links_from_soup` (anchor `href`, on-click handler
via the regex `om`, `data-href`/`data-url`). -/
def nodeLinks (uj : List Char → List Char → List Char)
    (om : List Char → Option (List Char)) (current : List Char) : HNode → List (List Char)
  | .text _ => []
  | .elem _ _ _ href onclick dataHref dataUrl _ =>
    (match href with
      | some h => processHref uj current h
      | none => [])
    ++ (match onclick with
      | some oc =>
        match om oc with
        | some target => [normalize_url (uj current target)]
        | none => []
      | none => [])
    ++ (match dataHref with
      | some d => [normalize_url (uj current d)]
      | none => [])
    ++ (match dataUrl with
      | some d => [normalize_url (uj current d)]
      | none => [])

/-- `_extract_links_from_soup`: the set of links contributed by every
node of the forest (the Python code fills one set across three
`find_all` traversals; as a set this is the union over elements of
their per-element contributions). -/
def collectLinks (uj : List Char → List Char → List Char)
    (om : List Char → Option (List Char)) (current : List Char) :
    List HNode → List (List Char)
  | [] => []
  | .text _ :: ns => collectLinks uj om current ns
  | .elem t cs ro h oc dh du ch :: ns =>
    nodeLinks uj om current (.elem t cs ro h oc dh du ch)
      ++ collectLinks uj om current ch ++ collectLinks uj om current ns

/-- `soup.stripped_strings`: every non-empty stripped text node, in
document order. -/
def strippedStrings : List HNode → List (List Char)
  | [] => []
  | .text s :: ns => (if pyStrip s = [] then [] else [pyStrip s]) ++ strippedStrings ns
  | .elem _ _ _ _ _ _ _ ch :: ns => strippedStrings ch ++ strippedStrings ns

/-- `extract_text_and_links` from `src/extractor.py`: drop
script/style/noscript, collect `all_links` on the unpruned tree, drop
nav/footer/header, theme-chrome classes and navigation roles, collect
`content_links` on the pruned tree, extract the text, and return both
link sets sorted. -/
def extract_text_and_links (uj : List Char → List Char → List Char)
    (om : List Char → Option (List Char)) (html : List HNode) (current_url : List Char) :
    List Char × List (List Char) × List (List Char) :=
  let soup := pruneForest (tagIn ["script".data, "style".data, "noscript".data]) html
  let all_links := collectLinks uj om current_url soup
  let soup := pruneForest (tagIn ["nav".data, "footer".data, "header".data]) soup
  let soup := pruneForest
    (classIn ["finaxio-builder-header".data, "finaxio-builder-footer".data]) soup
  let soup := pruneForest
    (roleIn ["navigation".data, "banner".data, "contentinfo".data]) soup
  let content_links := collectLinks uj om current_url soup
  let text := List.intercalate "\n".data (strippedStrings soup)
  (text, sortedDedup content_links, sortedDedup all_links)

/-! ## src/crawler.py

The headless-browser fetch (`page.goto` + `page.content`) is the
external collaborator `fetchHtml`, returning the parsed markup forest
of a page or `none` when the per-page try block raises.  The `visited`
set is modelled as the list of its members in visit order; `fetched` is
the trace of fetch attempts (one entry per execution of the fetch
call, which in the source happens exactly once per newly visited URL). -/

structure PageRecord where
  text : List Char
  links : List (List Char)

structure CrawlConfig where
  maxPages : Nat
  maxDepth : Nat
  baseDomain : List Char

structure CrawlState where
  visited : List (List Char)
  queue : List (List Char × Nat)
  data : List (List Char × PageRecord)
  fetched : List (List Char)

/-- One iteration of `crawl`'s `while` body: pop the front entry, skip
it when already visited, otherwise mark visited, fetch, record the page
on success, and enqueue unvisited internal links only when
`depth < MAX_DEPTH`. -/
def crawlStep (cfg : CrawlConfig) (uj : List Char → List Char → List Char)
    (om : List Char → Option (List Char))
    (fetchHtml : List Char → Option (List HNode)) (s : CrawlState) : CrawlState :=
  match s.queue with
  | [] => s
  | (url, depth) :: rest =>
    if url ∈ s.visited then ⟨s.visited, rest, s.data, s.fetched⟩
    else
      match fetchHtml url with
      | none => ⟨url :: s.visited, rest, s.data, url :: s.fetched⟩
      | some html =>
        ⟨url :: s.visited,
          (if depth < cfg.maxDepth then
            rest ++ ((extract_text_and_links uj om html url).2.2.filter
              (fun l => is_internal l cfg.baseDomain && !(decide (l ∈ url :: s.visited)))).map
              (fun l => (l, depth + 1))
          else rest),
          s.data ++ [(url, ⟨(extract_text_and_links uj om html url).1,
            List.insertionSort (· ≤ ·) (extract_text_and_links uj om html url).2.2⟩)],
          url :: s.fetched⟩

/-- `while queue and len(visited) < MAX_PAGES`, with explicit fuel. -/
def crawlLoop (cfg : CrawlConfig) (uj : List Char → List Char → List Char)
    (om : List Char → Option (List Char)) (fetchHtml : List Char → Option (List HNode)) :
    Nat → CrawlState → CrawlState
  | 0, s => s
  | fuel + 1, s =>
    if s.queue ≠ [] ∧ s.visited.length < cfg.maxPages then
      crawlLoop cfg uj om fetchHtml fuel (crawlStep cfg uj om fetchHtml s)
    else s

/-- The state `crawl` starts from:
`visited = {}`, `queue = [(normalize_url(start_url), 0)]`, `data = {}`. -/
def initCrawlState (start_url : List Char) : CrawlState :=
  ⟨[], [(normalize_url start_url, 0)], [], []⟩

/-- `crawl` from `src/crawler.py` (fuel-indexed loop). -/
def crawl (cfg : CrawlConfig) (uj : List Char → List Char → List Char)
    (om : List Char → Option (List Char)) (fetchHtml : List Char → Option (List HNode))
    (start_url : List Char) (fuel : Nat) : CrawlState :=
  crawlLoop cfg uj om fetchHtml fuel (initCrawlState start_url)

/-- The states a run of `crawl` passes through: the initial state and
everything reached by executing the loop body while the loop condition
holds. -/
inductive CrawlReachable (cfg : CrawlConfig) (uj : List Char → List Char → List Char)
    (om : List Char → Option (List Char)) (fetchHtml : List Char → Option (List HNode))
    (start_url : List Char) : CrawlState → Prop
  | init : CrawlReachable cfg uj om fetchHtml start_url (initCrawlState start_url)
  | step {s : CrawlState} (hs : CrawlReachable cfg uj om fetchHtml start_url s)
      (hq : s.queue ≠ []) (hp : s.visited.length < cfg.maxPages) :
      CrawlReachable cfg uj om fetchHtml start_url (crawlStep cfg uj om fetchHtml s)

/-! ### Chunker lemmas -/

theorem rfindChar_bounds {text : List Char} {c : Char} {s e i : Nat}
    (h : rfindChar text c s e = some i) : s ≤ i ∧ i < e := by
  have hm := List.mem_of_find?_eq_some h
  simp only [List.mem_map, List.mem_reverse, List.mem_range] at hm
  obtain ⟨j, hj, rfl⟩ := hm
  omega

theorem rfindDotSpace_bounds {text : List Char} {s e i : Nat}
    (h : rfindDotSpace text s e = some i) : s ≤ i ∧ i + 2 ≤ e := by
  have hp := List.find?_some h
  have hm := List.mem_of_find?_eq_some h
  simp only [Bool.and_eq_true, decide_eq_true_eq] at hp
  simp only [List.mem_map, List.mem_reverse, List.mem_range] at hm
  obtain ⟨j, hj, rfl⟩ := hm
  exact ⟨by omega, hp.1.1⟩

/-- In one loop iteration the computed chunk end lies strictly beyond
`start` and never beyond the tentative hard cut
`min (start + chunk_size) text.length`. -/
theorem chunkEnd_bounds {text : List Char} {chunk_size start : Nat}
    (hcs : 0 < chunk_size) (hs : start < text.length) :
    start < chunkEnd text chunk_size start ∧
      chunkEnd text chunk_size start ≤ min (start + chunk_size) text.length := by
  unfold chunkEnd
  dsimp only
  split
  · split
    · next i hi => have := rfindChar_bounds hi; omega
    · split
      · next i hi => have := rfindDotSpace_bounds hi; omega
      · omega
  · omega

/-- The forced-progress step 5 of the loop: `start` strictly increases. -/
theorem nextStart_gt {e overlap start : Nat} (h : start < e) :
    start < nextStart e overlap start := by
  unfold nextStart; split <;> omega

/-- Fuel `text.length - start` suffices for the loop: each iteration
moves `start` strictly forward, so the loop runs at most
`text.length` times. -/
theorem chunkLoop_isSome {text : List Char} {chunk_size overlap : Nat}
    (hcs : 0 < chunk_size) :
    ∀ fuel start, text.length ≤ start + fuel →
      (chunkLoop text chunk_size overlap fuel start).isSome = true := by
  intro fuel
  induction fuel with
  | zero =>
    intro start h
    have : ¬ start < text.length := by omega
    simp [chunkLoop, this]
  | succ n ih =>
    intro start h
    by_cases hs : start < text.length
    · have hb := chunkEnd_bounds hcs hs
      by_cases he : chunkEnd text chunk_size start = text.length
      · simp [chunkLoop, hs, he]
      · have hns : start < nextStart (chunkEnd text chunk_size start) overlap start :=
          nextStart_gt hb.1
        have hrec := ih (nextStart (chunkEnd text chunk_size start) overlap start) (by omega)
        obtain ⟨rest, hrest⟩ := Option.isSome_iff_exists.mp hrec
        simp [chunkLoop, hs, he, hrest]
    · simp [chunkLoop, hs]

/-- The boundary search only ever moves the tentative end earlier,
never later (no positivity hypotheses needed). -/
theorem chunkEnd_le {text : List Char} {chunk_size start : Nat} :
    chunkEnd text chunk_size start ≤ min (start + chunk_size) text.length := by
  unfold chunkEnd
  dsimp only
  split
  · split
    · next i hi => have := rfindChar_bounds hi; omega
    · split
      · next i hi => have := rfindDotSpace_bounds hi; omega
      · omega
  · omega

theorem pyStrip_length_le (s : List Char) : (pyStrip s).length ≤ s.length := by
  unfold pyStrip
  have h1 := (List.dropWhile_sublist (l := (s.dropWhile pyIsSpace).reverse) pyIsSpace).length_le
  have h2 := (List.dropWhile_sublist (l := s) pyIsSpace).length_le
  simp only [List.length_reverse] at h1 ⊢
  omega

theorem pySlice_length_le (text : List Char) (a b : Nat) :
    (pySlice text a b).length ≤ b - a := by
  unfold pySlice
  simp only [List.length_drop, List.length_take]
  omega

theorem emitChunk_mem {chunk : List Char} {rest : List (List Char)} {c : List Char}
    (h : c ∈ emitChunk chunk rest) : c = chunk ∨ c ∈ rest := by
  unfold emitChunk at h
  split at h
  · exact Or.inr h
  · rcases List.mem_cons.mp h with rfl | hm
    · exact Or.inl rfl
    · exact Or.inr hm

/-- Every chunk the loop emits is a stripped slice of width at most
`chunk_size`. -/
theorem chunkLoop_chunk_length {text : List Char} {chunk_size overlap : Nat} :
    ∀ fuel start chunks, chunkLoop text chunk_size overlap fuel start = some chunks →
      ∀ c ∈ chunks, c.length ≤ chunk_size := by
  have hchunk : ∀ start, (pyStrip (pySlice text start (chunkEnd text chunk_size start))).length
      ≤ chunk_size := by
    intro start
    have h1 := pyStrip_length_le (pySlice text start (chunkEnd text chunk_size start))
    have h2 := pySlice_length_le text start (chunkEnd text chunk_size start)
    have h3 := @chunkEnd_le text chunk_size start
    omega
  intro fuel
  induction fuel with
  | zero =>
    intro start chunks h c hc
    by_cases hs : start < text.length
    · simp [chunkLoop, hs] at h
    · simp only [chunkLoop, if_neg hs, Option.some.injEq] at h
      subst h
      simp at hc
  | succ n ih =>
    intro start chunks h c hc
    by_cases hs : start < text.length
    · by_cases he : chunkEnd text chunk_size start = text.length
      · simp only [chunkLoop, if_pos hs, if_pos he, Option.some.injEq] at h
        subst h
        rcases emitChunk_mem hc with rfl | hmem
        · exact hchunk start
        · simp at hmem
      · cases hrec : chunkLoop text chunk_size overlap n
            (nextStart (chunkEnd text chunk_size start) overlap start) with
        | none => simp [chunkLoop, hs, he, hrec] at h
        | some rest =>
          simp only [chunkLoop, if_pos hs, if_neg he, hrec, Option.some.injEq] at h
          subst h
          rcases emitChunk_mem hc with rfl | hmem
          · exact hchunk start
          · exact ih _ rest hrec c hmem
    · simp only [chunkLoop, if_neg hs, Option.some.injEq] at h
      subst h
      simp at hc

/-! ### Chunker theorems -/

/-- C1: `chunk_text` terminates for every text and every
`chunk_size > 0` (any `overlap`, including `overlap ≥ chunk_size`):
every iteration strictly increases `start`, so fuel equal to the length
of the text — i.e. at most `text.length` iterations — always suffices
for the loop to exit on its own. -/
theorem chunk_text_terminates (text : List Char) (chunk_size overlap : Nat)
    (hcs : 0 < chunk_size) :
    (chunkLoop text chunk_size overlap text.length 0).isSome = true :=
  chunkLoop_isSome hcs text.length 0 (by omega)

theorem chunk_text_terminates_witness :
    0 < 3 ∧ (chunkLoop "abcdef".data 3 5 "abcdef".data.length 0).isSome = true :=
  ⟨by decide, chunk_text_terminates "abcdef".data 3 5 (by decide)⟩

/-- C10: every chunk emitted by `chunk_text` has length at most
`chunk_size`: the tentative end `start + chunk_size` is only moved
earlier by the newline/period boundary search, and stripping only
shortens the slice. -/
theorem chunk_text_chunk_length_le (text : List Char) (chunk_size overlap : Nat)
    (c : List Char) (hc : c ∈ chunk_text text chunk_size overlap) :
    c.length ≤ chunk_size := by
  unfold chunk_text at hc
  cases h : chunkLoop text chunk_size overlap text.length 0 with
  | none => rw [h] at hc; simp at hc
  | some chunks =>
    rw [h] at hc
    exact chunkLoop_chunk_length text.length 0 chunks h c hc

theorem chunk_text_chunk_length_le_witness :
    "abc".data ∈ chunk_text "abcdef".data 3 0 ∧ "abc".data.length ≤ 3 :=
  ⟨by decide, chunk_text_chunk_length_le "abcdef".data 3 0 "abc".data (by decide)⟩

/-- C7 counterexample: the one-character whitespace text `" "` is
non-empty, has length at most `chunk_size = 5` with
`chunk_size > overlap = 2 ≥ 0`, yet `chunk_text` returns zero chunks
(the stripped slice is empty and empty chunks are discarded), not
exactly one. -/
theorem chunk_text_single_whitespace :
    " ".data ≠ ([] : List Char) ∧ " ".data.length ≤ 5 ∧ 2 < 5 ∧
      chunk_text " ".data 5 2 = [] := by decide

/-- C7 amended: for every text whose stripped form is non-empty and
whose length is at most `chunk_size`, with
`chunk_size > overlap ≥ 0`, `chunk_text` returns exactly one chunk,
namely the stripped text. -/
theorem chunk_text_one_chunk (text : List Char) (chunk_size overlap : Nat)
    (hne : pyStrip text ≠ []) (hlen : text.length ≤ chunk_size)
    (hov : overlap < chunk_size) :
    chunk_text text chunk_size overlap = [pyStrip text] := by
  have htext : text ≠ [] := by
    intro h
    exact hne (by simp [h, pyStrip])
  have hlen0 : 0 < text.length := List.length_pos.mpr htext
  have hmin : min (0 + chunk_size) text.length = text.length := by omega
  have hce : chunkEnd text chunk_size 0 = text.length := by
    unfold chunkEnd
    dsimp only
    rw [hmin]
    simp
  have key : ∀ fuel, 0 < fuel →
      chunkLoop text chunk_size overlap fuel 0 = some [pyStrip text] := by
    intro fuel hf
    obtain ⟨m, rfl⟩ : ∃ m, fuel = m + 1 := ⟨fuel - 1, by omega⟩
    unfold chunkLoop
    rw [if_pos hlen0, if_pos hce, hce]
    have hsl : pySlice text 0 text.length = text := by simp [pySlice]
    rw [hsl]
    unfold emitChunk
    rw [if_neg hne]
  unfold chunk_text
  rw [key text.length hlen0]
  rfl

theorem chunk_text_one_chunk_witness :
    pyStrip "ab".data ≠ [] ∧ chunk_text "ab".data 3 1 = [pyStrip "ab".data] :=
  ⟨by decide, chunk_text_one_chunk "ab".data 3 1 (by decide) (by decide) (by decide)⟩

/-! ### UrlNormalizer theorems -/

/-- Removing every trailing `c` by front recursion agrees with the
reverse/`dropWhile`/reverse route used by `rstripSlash`. -/
theorem dropTrailingAll_reverse (c : Char) :
    ∀ s : List Char, (dropTrailingAll c s).reverse = s.reverse.dropWhile (fun a => a = c) := by
  intro s
  induction s with
  | nil => rfl
  | cons a as ih =>
    cases hr : dropTrailingAll c as with
    | nil =>
      have has : as.reverse.dropWhile (fun a => a = c) = [] := by
        rw [← ih, hr]; rfl
      simp only [dropTrailingAll, hr, List.reverse_cons, List.dropWhile_append, has]
      by_cases hac : a = c <;> simp [hac, List.dropWhile]
    | cons r rs =>
      have hne : as.reverse.dropWhile (fun a => a = c) ≠ [] := by
        rw [← ih, hr]; simp
      simp only [dropTrailingAll, hr, List.reverse_cons, List.dropWhile_append]
      rw [if_neg (by simpa using hne)]
      rw [← ih, hr]
      simp

/-- C6 counterexample: on `"https://a.com//"` the code removes BOTH
trailing slashes (Python `rstrip("/")` removes every trailing `'/'`),
while the claim's "exactly one trailing `'/'` removed" leaves one. -/
theorem normalize_url_two_slashes :
    normalize_url "https://a.com//".data ≠ normalizeOneSlash "https://a.com//".data ∧
      normalize_url "https://a.com//".data = "https://a.com".data ∧
      normalizeOneSlash "https://a.com//".data = "https://a.com/".data := by decide

/-- C6 amended: `normalize_url u` equals `u` with everything from the
first `'#'` onward removed and then ALL trailing `'/'` characters
removed; it is a pure total function (as its Lean type shows). -/
theorem normalize_url_spec (url : List Char) :
    normalize_url url = dropTrailingAll '/' (splitHashHead url) := by
  unfold normalize_url rstripSlash
  rw [← dropTrailingAll_reverse '/', List.reverse_reverse]

/-- C9 counterexample: `"notexample.com"` merely ends with the
characters of `"example.com"`; it neither equals it nor is a
dot-separated subdomain of it, yet `is_internal` accepts it. -/
theorem is_internal_suffix_not_subdomain :
    is_internal "http://notexample.com/x".data "example.com".data = true ∧
      netloc "http://notexample.com/x".data ≠ "example.com".data ∧
      ¬ (('.' :: "example.com".data) <:+ netloc "http://notexample.com/x".data) := by
  decide

/-- C9 amended: `is_internal u b` is true iff the host of `u` equals
`b` or ends with the characters of `b` after any non-empty prefix — a
plain string-suffix match, with no `'.'`-boundary subdomain check. -/
theorem is_internal_iff (url base_domain : List Char) :
    is_internal url base_domain = true ↔
      (netloc url = base_domain ∨ ∃ p, p ≠ [] ∧ netloc url = p ++ base_domain) := by
  unfold is_internal pyEndswith
  rw [decide_eq_true_eq]
  constructor
  · rintro ⟨t, ht⟩
    cases t with
    | nil => exact Or.inl ht.symm
    | cons a as => exact Or.inr ⟨a :: as, by simp, ht.symm⟩
  · rintro (h | ⟨p, hp, h⟩)
    · exact ⟨[], by simp [h]⟩
    · exact ⟨p, h.symm⟩

/-! ### ChatEngine theorems -/

theorem validate_ollama_model_isErr {name : List Char}
    (h : allowedTags.any (fun tag => pyContains name tag) = false) :
    exceptIsError (validate_ollama_model name) = true := by
  unfold validate_ollama_model
  split
  · rfl
  · split
    · rfl
    · rw [if_neg (by simp [h])]
      rfl

/-- C8: constructing the engine with the local-model backend rejects
`"llama3:latest"` and every model name lacking each of the tags
`q4`/`q5`/`q6`/`q8`, and accepts `"llama3:8b-instruct-q4_K_M"`; the
check runs inside the constructor, so a rejected name never produces a
`ChatEngine` value on which a query could run. -/
theorem chatEngine_model_validation :
    (∀ a b c : List Char,
        exceptIsError (ChatEngine.init "ollama".data a "llama3:latest".data b c) = true) ∧
    (∀ a b c name : List Char,
        allowedTags.any (fun tag => pyContains name tag) = false →
          exceptIsError (ChatEngine.init "ollama".data a name b c) = true) ∧
    (∀ a b c : List Char,
        ChatEngine.init "ollama".data a "llama3:8b-instruct-q4_K_M".data b c =
          .ok ⟨"ollama".data, a, "llama3:8b-instruct-q4_K_M".data, b, c⟩) := by
  refine ⟨fun a b c => rfl, fun a b c name h => ?_, fun a b c => rfl⟩
  unfold ChatEngine.init
  cases hv : validate_ollama_model name with
  | error e => rfl
  | ok m =>
    have := validate_ollama_model_isErr h
    rw [hv] at this
    exact absurd this (by simp [exceptIsError])

theorem chatEngine_model_validation_witness :
    allowedTags.any (fun tag => pyContains "llama3".data tag) = false ∧
      exceptIsError
        (ChatEngine.init "ollama".data "u".data "llama3".data "v".data "w".data) = true :=
  ⟨by decide,
    chatEngine_model_validation.2.1 "u".data "v".data "w".data "llama3".data (by decide)⟩

/-- C4: whenever the vector store returns no documents, the assembled
context is exactly the literal `"No context available."`, the source
list is empty, and both the blocking answer and the streamed fragments
are exactly what the backend produced for that fallback prompt — no
`**Sources:**` citation block is ever appended. -/
theorem query_no_documents (generate : List Char → List Char)
    (stream : List Char → List (List Char))
    (results : Option SearchResults) (user_question : List Char)
    (halign : ∀ r, results = some r → r.Aligned)
    (hnodocs : returned_documents results = []) :
    context_text results = "No context available.".data ∧
    get_sources results = [] ∧
    ChatEngine.query generate results user_question =
      generate (build_prompt "No context available.".data user_question) ∧
    ChatEngine.query_stream stream results user_question =
      stream (build_prompt "No context available.".data user_question) := by
  have hctx : context_text results = "No context available.".data := by
    cases results with
    | none => rfl
    | some r =>
      simp only [returned_documents] at hnodocs
      cases hd : r.documents with
      | nil => simp [context_text, hd]
      | cons d ds =>
        have hd0 : d = [] := by
          rw [hd] at hnodocs
          simpa using hnodocs
        simp [context_text, hd, hd0, List.intercalate]
  have hsrc : get_sources results = [] := by
    cases results with
    | none => rfl
    | some r =>
      simp only [returned_documents] at hnodocs
      cases hm : r.metadatas with
      | nil => simp [get_sources, hm]
      | cons m ms =>
        obtain ⟨hlen, hzip⟩ := halign r rfl
        cases hd : r.documents with
        | nil => rw [hd, hm] at hlen; simp at hlen
        | cons d ds =>
          have hd0 : d = [] := by
            rw [hd] at hnodocs
            simpa using hnodocs
          subst hd0
          have hmem : (([] : List (List Char)), m) ∈ r.documents.zip r.metadatas := by
            rw [hd, hm]
            exact List.mem_cons_self _ _
          have hm0 : m = [] := by
            have hdm := hzip _ hmem
            simp at hdm
            exact List.eq_nil_of_length_eq_zero (by omega)
          simp [get_sources, hm, hm0, sortedDedup]
  refine ⟨hctx, hsrc, ?_, ?_⟩
  · simp [ChatEngine.query, hctx, hsrc]
  · simp [ChatEngine.query_stream, hctx, hsrc]

theorem query_no_documents_witness :
    ChatEngine.query (fun _ => "ok".data) (some ⟨[[]], [[]]⟩) "q".data =
      (fun _ => "ok".data)
        (build_prompt "No context available.".data "q".data) :=
  (query_no_documents (fun _ => "ok".data) (fun _ => []) (some ⟨[[]], [[]]⟩) "q".data
    (by intro r h; cases h; exact ⟨rfl, by decide⟩) (by decide)).2.2.1

/-- C3 counterexample: in the HTTP chat-completions (vLLM) stream a
frame whose payload cannot be JSON-decoded raises out of the generator
and aborts the stream — the later fragment `"lo"` is lost — while the
same frame sequence on the local-model (Ollama) stream is skipped and
the stream continues.  The claim's "for both generation backends" is
therefore false. -/
theorem stream_vllm_malformed_fatal :
    stream_vllm [.msg (some "Hel".data), .malformed "not-json".data,
        .msg (some "lo".data)] = .error "not-json".data ∧
      stream_ollama [.msg false (some "Hel".data), .malformed "not-json".data,
        .msg false (some "lo".data)] = ["Hel".data, "lo".data] :=
  ⟨rfl, rfl⟩

/-- C3 amended: only the local-model (Ollama) streaming loop logs and
skips a malformed frame and continues (deleting the frame does not
change the yielded fragments); the vLLM streaming loop raises on the
first malformed frame, so everything after it is dead — the error is
then converted to an error fragment by `query_stream`'s catch-all. -/
theorem stream_malformed_frame_behavior :
    (∀ (pre post : List OllamaFrame) (raw : List Char),
        stream_ollama (pre ++ .malformed raw :: post) = stream_ollama (pre ++ post)) ∧
    (∀ (pre post : List VllmFrame) (raw : List Char),
        stream_vllm (pre ++ .malformed raw :: post) =
          stream_vllm (pre ++ [.malformed raw])) := by
  constructor
  · intro pre post raw
    induction pre with
    | nil => rfl
    | cons f pre ih =>
      cases f with
      | empty => simpa [stream_ollama] using ih
      | malformed r => simpa [stream_ollama] using ih
      | msg done response =>
        cases done
        · cases response with
          | some c =>
            by_cases hc : c = []
            · simp [stream_ollama, hc, ih]
            · simp [stream_ollama, hc, ih]
          | none => simp [stream_ollama, ih]
        · simp [stream_ollama]
  · intro pre post raw
    induction pre with
    | nil => rfl
    | cons f pre ih =>
      cases f with
      | empty => simpa [stream_vllm] using ih
      | doneSentinel => rfl
      | malformed r => rfl
      | msg delta_content =>
        cases delta_content with
        | some c => simp [stream_vllm, ih]
        | none => simpa [stream_vllm] using ih

/-! ### PageExtractor theorems -/

/-- `nodeLinks` ignores the children field. -/
theorem nodeLinks_children (uj : List Char → List Char → List Char)
    (om : List Char → Option (List Char)) (current t : List Char) (cs : List (List Char))
    (ro h oc dh du : Option (List Char)) (ch1 ch2 : List HNode) :
    nodeLinks uj om current (.elem t cs ro h oc dh du ch1)
      = nodeLinks uj om current (.elem t cs ro h oc dh du ch2) := rfl

/-- Pruning nodes can only remove link contributions, never add them. -/
theorem collectLinks_pruneForest_subset (uj : List Char → List Char → List Char)
    (om : List Char → Option (List Char)) (current : List Char) (p : HNode → Bool) :
    ∀ (f : List HNode) (x : List Char), x ∈ collectLinks uj om current (pruneForest p f) →
      x ∈ collectLinks uj om current f
  | [], x, h => by
    simpa only [pruneForest] using h
  | .text s :: ns, x, h => by
    simp only [pruneForest, collectLinks] at h ⊢
    exact collectLinks_pruneForest_subset uj om current p ns x h
  | .elem t cs ro hh oc dh du ch :: ns, x, h => by
    by_cases hp : p (.elem t cs ro hh oc dh du ch)
    · rw [pruneForest, if_pos hp] at h
      simp only [collectLinks, List.mem_append]
      exact Or.inr (collectLinks_pruneForest_subset uj om current p ns x h)
    · rw [pruneForest, if_neg hp] at h
      simp only [collectLinks, List.mem_append] at h ⊢
      rw [nodeLinks_children uj om current t cs ro hh oc dh du (pruneForest p ch) ch] at h
      rcases h with (h | h) | h
      · exact Or.inl (Or.inl h)
      · exact Or.inl (Or.inr (collectLinks_pruneForest_subset uj om current p ch x h))
      · exact Or.inr (collectLinks_pruneForest_subset uj om current p ns x h)

theorem mem_sortedDedup {x : List Char} {l : List (List Char)} :
    x ∈ sortedDedup l ↔ x ∈ l := by
  unfold sortedDedup
  rw [List.Perm.mem_iff (List.perm_insertionSort _ _)]
  exact List.mem_dedup

theorem sortedDedup_sorted (l : List (List Char)) :
    List.Sorted (· ≤ ·) (sortedDedup l) :=
  List.sorted_insertionSort _ _

/-- C5: for every parsed markup forest and page URL (and any behavior
of the external `urljoin` and on-click-regex collaborators), the
`contentLinks` component of `extract_text_and_links` is a subset of the
`allLinks` component, and both are sorted ascending: the content pass
runs the same collection algorithm on a pruned version of the same
tree, and both outputs are `sorted(list(set))`. -/
theorem extract_text_and_links_contract (uj : List Char → List Char → List Char)
    (om : List Char → Option (List Char)) (html : List HNode) (current_url : List Char) :
    (extract_text_and_links uj om html current_url).2.1 ⊆
        (extract_text_and_links uj om html current_url).2.2 ∧
      List.Sorted (· ≤ ·) (extract_text_and_links uj om html current_url).2.1 ∧
      List.Sorted (· ≤ ·) (extract_text_and_links uj om html current_url).2.2 := by
  unfold extract_text_and_links
  dsimp only
  refine ⟨?_, sortedDedup_sorted _, sortedDedup_sorted _⟩
  intro x hx
  rw [mem_sortedDedup] at hx ⊢
  exact collectLinks_pruneForest_subset uj om current_url _ _ x
    (collectLinks_pruneForest_subset uj om current_url _ _ x
      (collectLinks_pruneForest_subset uj om current_url _ _ x hx))

/-- Every state the fueled loop returns from a reachable state is
reachable. -/
theorem crawlLoop_reachable (cfg : CrawlConfig) (uj : List Char → List Char → List Char)
    (om : List Char → Option (List Char)) (fetchHtml : List Char → Option (List HNode))
    (start_url : List Char) :
    ∀ (fuel : Nat) (s : CrawlState), CrawlReachable cfg uj om fetchHtml start_url s →
      CrawlReachable cfg uj om fetchHtml start_url
        (crawlLoop cfg uj om fetchHtml fuel s) := by
  intro fuel
  induction fuel with
  | zero => intro s hs; exact hs
  | succ n ih =>
    intro s hs
    unfold crawlLoop
    split
    · next hcond => exact ih _ (CrawlReachable.step hs hcond.1 hcond.2)
    · exact hs

/-- Crawl-state invariant: the visited set never exceeds `maxPages`,
stays duplicate-free, and coincides with the trace of fetch attempts. -/
theorem crawl_invariant (cfg : CrawlConfig) (uj : List Char → List Char → List Char)
    (om : List Char → Option (List Char)) (fetchHtml : List Char → Option (List HNode))
    (start_url : List Char) (s : CrawlState)
    (h : CrawlReachable cfg uj om fetchHtml start_url s) :
    s.visited.Nodup ∧ s.visited.length ≤ cfg.maxPages ∧ s.fetched = s.visited := by
  induction h with
  | init => exact ⟨List.nodup_nil, by simp [initCrawlState], rfl⟩
  | step hs hq hp ih =>
    obtain ⟨hnd, hle, hfv⟩ := ih
    rename_i s'
    unfold crawlStep
    cases hqe : s'.queue with
    | nil =>
      dsimp only
      exact ⟨hnd, hle, hfv⟩
    | cons ud rest =>
      obtain ⟨url, depth⟩ := ud
      dsimp only
      by_cases hv : url ∈ s'.visited
      · rw [if_pos hv]
        exact ⟨hnd, hle, hfv⟩
      · rw [if_neg hv]
        cases fetchHtml url with
        | none =>
          exact ⟨List.nodup_cons.mpr ⟨hv, hnd⟩, by simp; omega, by rw [hfv]⟩
        | some html =>
          exact ⟨List.nodup_cons.mpr ⟨hv, hnd⟩, by simp; omega, by rw [hfv]⟩

/-- C2: throughout every run of `crawl`, the visited set holds at most
`maxPages` distinct URLs and no URL is marked visited or fetched twice;
and whenever the entry being processed sits at `depth = maxDepth` and
fetches successfully, its links are not enqueued (the queue shrinks to
exactly the remaining entries) while the page itself is still recorded
in the result mapping. -/
theorem crawl_bounded_dedup_maxdepth (cfg : CrawlConfig)
    (uj : List Char → List Char → List Char) (om : List Char → Option (List Char))
    (fetchHtml : List Char → Option (List HNode)) (start_url : List Char) :
    (∀ s : CrawlState, CrawlReachable cfg uj om fetchHtml start_url s →
        s.visited.length ≤ cfg.maxPages ∧ s.visited.Nodup ∧ s.fetched.Nodup) ∧
    (∀ (s : CrawlState) (url : List Char) (depth : Nat)
        (rest : List (List Char × Nat)) (html : List HNode),
        s.queue = (url, depth) :: rest → url ∉ s.visited → depth = cfg.maxDepth →
        fetchHtml url = some html →
        (crawlStep cfg uj om fetchHtml s).queue = rest ∧
          (url, (⟨(extract_text_and_links uj om html url).1,
              List.insertionSort (· ≤ ·) (extract_text_and_links uj om html url).2.2⟩ :
                PageRecord))
            ∈ (crawlStep cfg uj om fetchHtml s).data) := by
  constructor
  · intro s hs
    obtain ⟨hnd, hle, hfv⟩ := crawl_invariant cfg uj om fetchHtml start_url s hs
    exact ⟨hle, hnd, hfv ▸ hnd⟩
  · intro s url depth rest html hqe hv hdep hf
    unfold crawlStep
    rw [hqe]
    dsimp only
    rw [if_neg hv, hf]
    dsimp only
    have hnd : ¬ depth < cfg.maxDepth := by omega
    rw [if_neg hnd]
    exact ⟨rfl, List.mem_append_right _ (List.mem_singleton.mpr rfl)⟩

theorem crawl_bounded_dedup_maxdepth_witness :
    ((initCrawlState "a".data).visited.length ≤ 1 ∧
      (initCrawlState "a".data).visited.Nodup ∧ (initCrawlState "a".data).fetched.Nodup) ∧
    ((crawlStep ⟨1, 0, "b".data⟩ (fun _ l => l) (fun _ => (none : Option (List Char)))
        (fun _ => some ([] : List HNode)) (initCrawlState "a".data)).queue = [] ∧
      ("a".data, (⟨(extract_text_and_links (fun _ l => l)
            (fun _ => (none : Option (List Char))) [] "a".data).1,
          List.insertionSort (· ≤ ·) (extract_text_and_links (fun _ l => l)
            (fun _ => (none : Option (List Char))) [] "a".data).2.2⟩ : PageRecord))
        ∈ (crawlStep ⟨1, 0, "b".data⟩ (fun _ l => l) (fun _ => (none : Option (List Char)))
            (fun _ => some ([] : List HNode)) (initCrawlState "a".data)).data) :=
  ⟨(crawl_bounded_dedup_maxdepth ⟨1, 0, "b".data⟩ (fun _ l => l)
      (fun _ => (none : Option (List Char))) (fun _ => some ([] : List HNode)) "a".data).1
      _ CrawlReachable.init,
   (crawl_bounded_dedup_maxdepth ⟨1, 0, "b".data⟩ (fun _ l => l)
      (fun _ => (none : Option (List Char))) (fun _ => some ([] : List HNode)) "a".data).2
      (initCrawlState "a".data) "a".data 0 [] [] rfl (by simp [initCrawlState]) rfl rfl⟩

theorem extract_text_and_links_contract_witness :
    (extract_text_and_links (fun _ l => l) (fun _ => (none : Option (List Char)))
        [HNode.text "t".data] "u".data).2.1 ⊆
      (extract_text_and_links (fun _ l => l) (fun _ => (none : Option (List Char)))
        [HNode.text "t".data] "u".data).2.2 ∧
    List.Sorted (· ≤ ·) (extract_text_and_links (fun _ l => l)
      (fun _ => (none : Option (List Char))) [HNode.text "t".data] "u".data).2.1 ∧
    List.Sorted (· ≤ ·) (extract_text_and_links (fun _ l => l)
      (fun _ => (none : Option (List Char))) [HNode.text "t".data] "u".data).2.2 :=
  extract_text_and_links_contract (fun _ l => l) (fun _ => (none : Option (List Char)))
    [HNode.text "t".data] "u".data
